import Mathlib

set_option maxHeartbeats 1000000

/-! Verification of the diffenator3 font regression tool: a shallow embedding of
the word-list registry, variable-font location parsing, the structural table
diff, and the shaping and rasterization pipeline, with theorems about each.
External collaborators (the binary font decoder, the text shaper, the glyph
rasterizer, floating-point parsing) are modelled as parameters; f32 arithmetic
is idealized as rational arithmetic. -/

namespace Diffenator3

/-! ### Word lists (src/render/wordlists.rs)

Each constructor of `WordlistData` stands for one of the decompressed
per-script word-list statics; each constructor of `ScriptTag` stands for one
of the rustybuzz script constants. The two lookup functions mirror the
string matches in the source. -/

inductive WordlistData where
  | ADLAM | ARABIC | ARMENIAN | AVESTAN | BENGALI | BOPOMOFO
  | CANADIAN_ABORIGINAL | CHAKMA | CHEROKEE | COMMON | CYRILLIC | DEVANAGARI
  | ETHIOPIC | GEORGIAN | GRANTHA | GREEK | GUJARATI | GURMUKHI | HEBREW
  | HIRAGANA | JAPANESE | KANNADA | KATAKANA | KHMER | LAO | LATIN | LISU
  | MALAYALAM | MONGOLIAN | MYANMAR | OL_CHIKI | ORIYA | OSAGE | SINHALA
  | SYRIAC | TAMIL | TELUGU | THAI | THANAA | TIBETAN | TIFINAGH | VAI
  deriving DecidableEq

inductive ScriptTag where
  | ADLAM | ARABIC | ARMENIAN | AVESTAN | BENGALI | BOPOMOFO
  | CANADIAN_SYLLABICS | CHAKMA | CHEROKEE | COMMON | CYRILLIC | DEVANAGARI
  | ETHIOPIC | GEORGIAN | GRANTHA | GREEK | GUJARATI | GURMUKHI | HEBREW
  | HIRAGANA | KANNADA | KATAKANA | KHMER | LAO | LATIN | LISU
  | MALAYALAM | MONGOLIAN | MYANMAR | OL_CHIKI | ORIYA | OSAGE | SINHALA
  | SYRIAC | TAMIL | TELUGU | THAI | TIBETAN | TIFINAGH | VAI
  deriving DecidableEq

def get_wordlist (script : String) : Option WordlistData :=
  match script with
  | "Adlam" => some .ADLAM
  | "Arabic" => some .ARABIC
  | "Armenian" => some .ARMENIAN
  | "Avestan" => some .AVESTAN
  | "Bengali" => some .BENGALI
  | "Bopomofo" => some .BOPOMOFO
  | "Canadian_Aboriginal" => some .CANADIAN_ABORIGINAL
  | "Chakma" => some .CHAKMA
  | "Cherokee" => some .CHEROKEE
  | "Common" => some .COMMON
  | "Cyrillic" => some .CYRILLIC
  | "Devanagari" => some .DEVANAGARI
  | "Ethiopic" => some .ETHIOPIC
  | "Georgian" => some .GEORGIAN
  | "Grantha" => some .GRANTHA
  | "Greek" => some .GREEK
  | "Gujarati" => some .GUJARATI
  | "Gurmukhi" => some .GURMUKHI
  | "Hebrew" => some .HEBREW
  | "Hiragana" => some .HIRAGANA
  | "Japanese" => some .JAPANESE
  | "Kannada" => some .KANNADA
  | "Katakana" => some .KATAKANA
  | "Khmer" => some .KHMER
  | "Lao" => some .LAO
  | "Latin" => some .LATIN
  | "Lisu" => some .LISU
  | "Malayalam" => some .MALAYALAM
  | "Mongolian" => some .MONGOLIAN
  | "Myanmar" => some .MYANMAR
  | "Ol_Chiki" => some .OL_CHIKI
  | "Oriya" => some .ORIYA
  | "Osage" => some .OSAGE
  | "Sinhala" => some .SINHALA
  | "Syriac" => some .SYRIAC
  | "Tamil" => some .TAMIL
  | "Telugu" => some .TELUGU
  | "Thai" => some .THAI
  | "Thanaa" => some .THANAA
  | "Tibetan" => some .TIBETAN
  | "Tifinagh" => some .TIFINAGH
  | "Vai" => some .VAI
  | _ => none

def get_script_tag (script : String) : Option ScriptTag :=
  match script with
  | "Adlam" => some .ADLAM
  | "Arabic" => some .ARABIC
  | "Armenian" => some .ARMENIAN
  | "Avestan" => some .AVESTAN
  | "Bengali" => some .BENGALI
  | "Bopomofo" => some .BOPOMOFO
  | "Canadian_Aboriginal" => some .CANADIAN_SYLLABICS
  | "Chakma" => some .CHAKMA
  | "Cherokee" => some .CHEROKEE
  | "Common" => some .COMMON
  | "Cyrillic" => some .CYRILLIC
  | "Devanagari" => some .DEVANAGARI
  | "Ethiopic" => some .ETHIOPIC
  | "Georgian" => some .GEORGIAN
  | "Grantha" => some .GRANTHA
  | "Greek" => some .GREEK
  | "Gujarati" => some .GUJARATI
  | "Gurmukhi" => some .GURMUKHI
  | "Hebrew" => some .HEBREW
  | "Hiragana" => some .HIRAGANA
  | "Kannada" => some .KANNADA
  | "Katakana" => some .KATAKANA
  | "Khmer" => some .KHMER
  | "Lao" => some .LAO
  | "Latin" => some .LATIN
  | "Lisu" => some .LISU
  | "Malayalam" => some .MALAYALAM
  | "Mongolian" => some .MONGOLIAN
  | "Myanmar" => some .MYANMAR
  | "Ol_Chiki" => some .OL_CHIKI
  | "Oriya" => some .ORIYA
  | "Osage" => some .OSAGE
  | "Sinhala" => some .SINHALA
  | "Syriac" => some .SYRIAC
  | "Tamil" => some .TAMIL
  | "Telugu" => some .TELUGU
  | "Thai" => some .THAI
  | "Tibetan" => some .TIBETAN
  | "Tifinagh" => some .TIFINAGH
  | "Vai" => some .VAI
  | _ => none

/-- C10: exactly the script names "Japanese" and "Thanaa" have a word list but
no shaping-script tag; every other script name has a word list if and only if
it has a script tag. -/
theorem wordlist_script_tag_agreement :
    (get_wordlist "Japanese").isSome = true ∧ get_script_tag "Japanese" = none ∧
    (get_wordlist "Thanaa").isSome = true ∧ get_script_tag "Thanaa" = none ∧
    ∀ s : String, s ≠ "Japanese" → s ≠ "Thanaa" →
      ((get_wordlist s).isSome ↔ (get_script_tag s).isSome) := by
  refine ⟨rfl, rfl, rfl, rfl, ?_⟩
  intro s h1 h2
  unfold get_wordlist get_script_tag
  split <;> simp_all

/-- Witness for C10: the theorem applied at the concrete script name "Latin". -/
theorem wordlist_script_tag_agreement_witness :
    (get_wordlist "Latin").isSome ↔ (get_script_tag "Latin").isSome :=
  wordlist_script_tag_agreement.2.2.2.2 "Latin" (by decide) (by decide)

/-! ### DFont and variation locations (src/dfont.rs)

Rust strings are modelled as lists of characters, `str::split` as `splitChar`,
and `str::parse::<f32>` as an abstract parameter `parsef32` (it is a standard
library function, external to the repository). The skrifa `Location` type and
the axis normalization `fontref().axes().location(..)` are likewise external
and appear as the type parameter `L` and the parameter `normalize`. -/

/-- Rust `str::split(sep)` on a list of characters: the (possibly empty)
chunks between separator occurrences. It never returns an empty list. -/
def splitChar (sep : Char) : List Char → List (List Char)
  | [] => [[]]
  | c :: rest =>
    if c = sep then [] :: splitChar sep rest
    else
      match splitChar sep rest with
      | [] => [[c]]
      | s :: ss => (c :: s) :: ss

/-- One `axis=value` setting, as produced by `parse_location`. -/
structure VariationSetting (F : Type) where
  axis : List Char
  value : F
  deriving DecidableEq

/-- State of a `DFont`: the fields of the Rust struct, with the font binary as
bytes and the normalized location abstract. -/
structure DFont (F L : Type) where
  backing : List Nat
  location : List (VariationSetting F)
  normalized_location : L
  codepoints : List Nat

/-- Body of the `for variation in variations.split(',')` loop in
`DFont::parse_location`: split the segment at `=`, take the part before the
first `=` as the axis, require a second part and parse it as an f32. -/
def parseVariation (parsef32 : List Char → Option F) (seg : List Char) :
    Except String (VariationSetting F) :=
  match splitChar '=' seg with
  | [] => .error "Couldn't parse axis"
  | axis :: rest =>
    match rest with
    | [] => .error "Couldn't parse value"
    | value :: _ =>
      match parsef32 value with
      | none => .error "Couldn't parse value"
      | some v => .ok ⟨axis, v⟩

/-- Loop of `DFont::parse_location`, accumulating settings in order and
stopping at the first malformed segment. -/
def parseLocationSegments (parsef32 : List Char → Option F) :
    List (List Char) → Except String (List (VariationSetting F))
  | [] => .ok []
  | seg :: rest =>
    match parseVariation parsef32 seg with
    | .error e => .error e
    | .ok s =>
      match parseLocationSegments parsef32 rest with
      | .error e => .error e
      | .ok ss => .ok (s :: ss)

/-- The private `DFont::parse_location` helper. -/
def parse_location (parsef32 : List Char → Option F) (variations : List Char) :
    Except String (List (VariationSetting F)) :=
  parseLocationSegments parsef32 (splitChar ',' variations)

/-- The public `DFont::set_location` method: parse the variations string and,
on success only, replace the `location` and `normalized_location` fields. -/
def set_location (parsef32 : List Char → Option F)
    (normalize : List (VariationSetting F) → L) (fnt : DFont F L)
    (variations : List Char) : Except String Unit × DFont F L :=
  match parse_location parsef32 variations with
  | .error e => (.error e, fnt)
  | .ok loc => (.ok (), { fnt with location := loc, normalized_location := normalize loc })

theorem splitChar_ne_nil (sep : Char) (l : List Char) : splitChar sep l ≠ [] := by
  cases l with
  | nil => simp [splitChar]
  | cons c rest =>
    simp only [splitChar]
    split
    · simp
    · split <;> simp

/-- A segment splits at `=` into a single chunk exactly when it contains
no `=` character. -/
theorem splitChar_get?_one_eq_none (sep : Char) (l : List Char) :
    (splitChar sep l).get? 1 = none ↔ sep ∉ l := by
  induction l with
  | nil => simp [splitChar]
  | cons c rest ih =>
    simp only [splitChar]
    by_cases hc : c = sep
    · simp only [hc, if_pos rfl]
      rcases hsp : splitChar sep rest with _ | ⟨s, ss⟩
      · exact absurd hsp (splitChar_ne_nil sep rest)
      · constructor
        · intro h
          simp [List.get?] at h
        · intro h
          exact absurd (List.mem_cons_self sep rest) (hc ▸ h)
    · simp only [if_neg hc]
      rcases hsp : splitChar sep rest with _ | ⟨s, ss⟩
      · exact absurd hsp (splitChar_ne_nil sep rest)
      · have : (splitChar sep rest).get? 1 = ss.get? 0 := by rw [hsp]; rfl
        simp only [List.get?] at this ⊢
        rw [← this, ih]
        constructor
        · intro h hm
          rcases List.mem_cons.mp hm with h1 | h2
          · exact hc h1.symm
          · exact h h2
        · intro h hm
          exact h (List.mem_cons_of_mem c hm)

theorem parseVariation_no_eq (parsef32 : List Char → Option F) (seg : List Char)
    (h : '=' ∉ seg) : ∃ e, parseVariation parsef32 seg = .error e := by
  rcases hsp : splitChar '=' seg with _ | ⟨axis, rest⟩
  · exact absurd hsp (splitChar_ne_nil '=' seg)
  · have h1 : (splitChar '=' seg).get? 1 = none := (splitChar_get?_one_eq_none '=' seg).mpr h
    rw [hsp] at h1
    have : rest = [] := by
      cases rest with
      | nil => rfl
      | cons a b => simp [List.get?] at h1
    subst this
    exact ⟨"Couldn't parse value", by simp [parseVariation, hsp]⟩

theorem parseVariation_bad_value (parsef32 : List Char → Option F) (seg value : List Char)
    (hv : (splitChar '=' seg).get? 1 = some value) (hp : parsef32 value = none) :
    ∃ e, parseVariation parsef32 seg = .error e := by
  rcases hsp : splitChar '=' seg with _ | ⟨axis, rest⟩
  · exact absurd hsp (splitChar_ne_nil '=' seg)
  · rw [hsp] at hv
    cases rest with
    | nil => simp [List.get?] at hv
    | cons a b =>
      simp only [List.get?] at hv
      cases hv
      exact ⟨"Couldn't parse value", by simp [parseVariation, hsp, hp]⟩

theorem parseLocationSegments_error_of_mem (parsef32 : List Char → Option F)
    (segs : List (List Char)) (seg : List Char) (hmem : seg ∈ segs)
    (herr : ∃ e, parseVariation parsef32 seg = .error e) :
    ∃ e, parseLocationSegments parsef32 segs = .error e := by
  induction segs with
  | nil => cases hmem
  | cons s rest ih =>
    rcases List.mem_cons.mp hmem with h1 | h2
    · subst h1
      obtain ⟨e, he⟩ := herr
      exact ⟨e, by simp [parseLocationSegments, he]⟩
    · rcases hs : parseVariation parsef32 s with e | v
      · exact ⟨e, by simp [parseLocationSegments, hs]⟩
      · obtain ⟨e, he⟩ := ih h2
        exact ⟨e, by simp [parseLocationSegments, hs, he]⟩

/-- C9: `set_location` is atomic on error. If some comma-separated segment of
the variations string has no `=` separator, or its second `=`-separated
component does not parse as an f32, then `set_location` returns an error and
returns the `DFont` with every field (in particular `location` and
`normalized_location`) exactly as it was. -/
theorem set_location_atomic_on_error (F L : Type) (parsef32 : List Char → Option F)
    (normalize : List (VariationSetting F) → L) (fnt : DFont F L)
    (variations : List Char)
    (h : ∃ seg ∈ splitChar ',' variations,
      '=' ∉ seg ∨ ∃ v, (splitChar '=' seg).get? 1 = some v ∧ parsef32 v = none) :
    ∃ e, set_location parsef32 normalize fnt variations = (.error e, fnt) := by
  obtain ⟨seg, hmem, hbad⟩ := h
  have herr : ∃ e, parseVariation parsef32 seg = .error e := by
    rcases hbad with h1 | ⟨v, hv, hp⟩
    · exact parseVariation_no_eq parsef32 seg h1
    · exact parseVariation_bad_value parsef32 seg v hv hp
  obtain ⟨e, he⟩ := parseLocationSegments_error_of_mem parsef32 _ seg hmem herr
  exact ⟨e, by simp [set_location, parse_location, he]⟩

/-- Witness for C9: a concrete malformed variations string ("wght", with no
equals sign) leaves a concrete `DFont` untouched. -/
theorem set_location_atomic_on_error_witness :
    ∃ e, set_location (F := Unit) (L := Unit) (fun _ => none) (fun _ => ())
      ⟨[0], [], (), []⟩ "wght".data = (.error e, ⟨[0], [], (), []⟩) :=
  set_location_atomic_on_error Unit Unit (fun _ => none) (fun _ => ())
    ⟨[0], [], (), []⟩ "wght".data (by decide)

/-! ### Value trees and the structural diff (src/ttj/mod.rs)

serde_json values are embedded as the inductive `Value`; objects are ordered
association lists with string keys, numbers are idealized as integers (their
exact carrier plays no role in the diff claims, only decidable equality).
Grayscale bitmaps are shared with the rendering pipeline below. -/

inductive Value where
  | null
  | bool (b : Bool)
  | num (n : Int)
  | str (s : String)
  | arr (elements : List Value)
  | obj (entries : List (String × Value))

/-- Structural equality of serde_json values, as a boolean function. -/
def Value.beq : Value → Value → Bool
  | .null, .null => true
  | .bool a, .bool b => a == b
  | .num a, .num b => a == b
  | .str a, .str b => a == b
  | .arr [], .arr [] => true
  | .arr (x :: xs), .arr (y :: ys) => Value.beq x y && Value.beq (.arr xs) (.arr ys)
  | .obj [], .obj [] => true
  | .obj ((k1, v1) :: xs), .obj ((k2, v2) :: ys) =>
      k1 == k2 && Value.beq v1 v2 && Value.beq (.obj xs) (.obj ys)
  | _, _ => false

theorem Value.beq_iff_eq : ∀ a b : Value, (Value.beq a b = true) ↔ a = b := by
  intro a b
  induction a, b using Value.beq.induct with
  | case9 x y h1 h2 h3 h4 h5 h6 h7 h8 =>
    rcases x with _ | a | a | a | (_ | ⟨xh, xt⟩) | (_ | ⟨⟨xk, xv⟩, xt⟩) <;>
      rcases y with _ | b | b | b | (_ | ⟨yh, yt⟩) | (_ | ⟨⟨yk, yv⟩, yt⟩) <;>
      first
      | exact (h1 rfl rfl).elim
      | exact (h2 _ _ rfl rfl).elim
      | exact (h3 _ _ rfl rfl).elim
      | exact (h4 _ _ rfl rfl).elim
      | exact (h5 rfl rfl).elim
      | exact (h6 _ _ _ _ rfl rfl).elim
      | exact (h7 rfl rfl).elim
      | exact (h8 _ _ _ _ _ _ rfl rfl).elim
      | simp [Value.beq]
  | _ => simp_all [Value.beq]

instance : DecidableEq Value := fun a b => decidable_of_iff _ (Value.beq_iff_eq a b)

/-- Object lookup with the spec's convention that an absent key reads as
`Null`. -/
def lookupKey (k : String) : List (String × Value) → Value
  | [] => .null
  | (k2, v) :: rest => if k2 = k then v else lookupKey k rest

theorem sizeOf_lookupKey (k : String) (l : List (String × Value)) :
    sizeOf (lookupKey k l) < 1 + sizeOf l := by
  induction l with
  | nil => simp [lookupKey]
  | cons p rest ih =>
    rcases p with ⟨k2, v⟩
    simp only [lookupKey]
    split
    · simp only [List.cons.sizeOf_spec, Prod.mk.sizeOf_spec]
      omega
    · simp only [List.cons.sizeOf_spec, Prod.mk.sizeOf_spec]
      omega

/-- Union of the keys of two objects: the left object's keys in their order,
then the right object's keys not already seen, in their order. -/
def keysUnion (l r : List (String × Value)) : List String :=
  l.map Prod.fst ++ (r.map Prod.fst).filter (fun k => !(l.map Prod.fst).contains k)

/-- Modelled from the spec: the recursive structural diff `diff(left, right)`
of src/ttj/jsondiff.rs, which is not among the sources. Per spec section 4.2,
when both sides are objects the key union is traversed, each key's children
are compared recursively (an absent key reads as `Null`) and keys whose
recursive diff is empty are dropped; in every other case the node is a leaf:
no difference when the two values are structurally equal, otherwise the leaf
pair `[left, right]`. Arrays are compared as whole leaf pairs, never
element-wise. An empty result is the empty object. -/
def diffV : Value → Value → Value
  | .obj l, .obj r =>
    .obj (((keysUnion l r).attach.map
      (fun k => (k.1, diffV (lookupKey k.1 l) (lookupKey k.1 r)))).filter
      (fun kv => kv.2 != Value.obj []))
  | l, r => if l = r then .obj [] else .arr [l, r]
termination_by l _ => sizeOf l
decreasing_by
  simp_wf
  exact sizeOf_lookupKey _ _

/-- Decoded per-table data: the serialized table for a table that decodes, the
string leaf "Could not parse" otherwise (`font_to_json`, src/ttj/mod.rs). -/
def decodeTableValue : Except String Value → Value
  | .ok v => v
  | .error _ => .str "Could not parse"

/-- A font as seen by `font_to_json`: for each record of the table directory,
its tag and the outcome of decoding and serializing it (the decoding itself
is the external read-fonts collaborator), plus the separately serialized name
table. -/
structure FontData where
  tableRecords : List (String × Except String Value)
  nameTable : Value

/-- The `font_to_json` function of src/ttj/mod.rs: one object entry per table
record, keyed by tag, holding the serialized table or the "Could not parse"
leaf, followed by the "name" entry. -/
def font_to_json (f : FontData) : Value :=
  .obj (f.tableRecords.map (fun kv => (kv.1, decodeTableValue kv.2)) ++ [("name", f.nameTable)])

/-- The `table_diff` function of src/ttj/mod.rs. -/
def table_diff (a b : FontData) : Value := diffV (font_to_json a) (font_to_json b)

/-- Grayscale bitmap: dimensions plus a pixel function (Luma8 values). -/
structure GrayImage where
  width : Nat
  height : Nat
  pix : Nat → Nat → Nat

/-- Modelled from the spec: the number of differing pixels between two
bitmaps per spec section 4.4 (the visual comparison engine of src/render,
whose driver is not among the sources): pixels of the union extent, where a
pixel differs unless it lies in both bitmaps with equal intensity. -/
def diffPixelCount (a b : GrayImage) : Nat :=
  ((List.range (max a.width b.width)).map (fun x =>
    ((List.range (max a.height b.height)).filter (fun y =>
      !(decide (x < a.width) && decide (y < a.height) && decide (x < b.width) &&
        decide (y < b.height) && (a.pix x y == b.pix x y)))).length)).sum

/-- Modelled from the spec: the percent difference of two bitmaps, the
fraction of differing pixels scaled to 0 to 100. -/
def percentPixels (a b : GrayImage) : ℚ :=
  100 * diffPixelCount a b / ((max a.width b.width) * (max a.height b.height))

inductive DiffCategory where
  | missing
  | new
  | modified
  deriving DecidableEq

/-- Modelled from the spec: classification of one probe rendered against both
fonts, per spec section 4.4: `missing` when only the old font renders it,
`new` when only the new font does, `modified` when both render it with a
positive percent difference, and no entry otherwise. -/
def compareRenders (ra rb : Option GrayImage) : Option DiffCategory :=
  match ra, rb with
  | none, none => none
  | some _, none => some .missing
  | none, some _ => some .new
  | some a, some b => if 0 < percentPixels a b then some .modified else none

/-- Modelled from the spec: the aggregation of one probe domain (codepoints
of one font pair, or the words of one script) into the three diff buckets. -/
def runProbes (P : Type) (renderA renderB : P → Option GrayImage) (probes : List P) :
    List P × List P × List P :=
  (probes.filter (fun p => compareRenders (renderA p) (renderB p) == some .missing),
   probes.filter (fun p => compareRenders (renderA p) (renderB p) == some .new),
   probes.filter (fun p => compareRenders (renderA p) (renderB p) == some .modified))

theorem diffPixelCount_self (a : GrayImage) : diffPixelCount a a = 0 := by
  apply List.sum_eq_zero
  intro n hn
  rw [List.mem_map] at hn
  obtain ⟨x, hx, rfl⟩ := hn
  rw [List.mem_range] at hx
  simp only [List.length_eq_zero, List.filter_eq_nil_iff]
  intro y hy
  rw [List.mem_range] at hy
  simp only [max_self] at hx hy
  simp [hx, hy]

theorem compareRenders_self (r : Option GrayImage) : compareRenders r r = none := by
  cases r with
  | none => rfl
  | some a =>
    simp [compareRenders, percentPixels, diffPixelCount_self a]

theorem diffV_self_aux : ∀ a b : Value, a = b → diffV a b = .obj [] := by
  intro a b
  induction a, b using diffV.induct with
  | case1 l r ih =>
    intro hab
    injection hab with hlr
    subst hlr
    rw [diffV.eq_1]
    have hall : ∀ p ∈ (keysUnion l l).attach.map
        (fun k => ((k.1 : String), diffV (lookupKey k.1 l) (lookupKey k.1 l))),
        ¬ (p.2 != Value.obj []) = true := by
      intro p hp
      rw [List.mem_map] at hp
      obtain ⟨k, hk, rfl⟩ := hp
      simp [ih k rfl]
    rw [List.filter_eq_nil_iff.mpr hall]
  | case2 r hne =>
    intro _
    rw [diffV.eq_2 r r hne, if_pos rfl]
  | case3 l r hne hlr =>
    intro hab
    exact absurd hab hlr

/-- C2: the structural diff is anti-reflexive: `diff(X, X)` is the empty
object for every value tree `X`; consequently `table_diff` of two identical
fonts is empty, and a whole run of the probe comparison with both sides
rendering identically produces empty missing, new and modified buckets. -/
theorem diff_anti_reflexive :
    (∀ X : Value, diffV X X = .obj []) ∧
    (∀ f : FontData, table_diff f f = .obj []) ∧
    (∀ (P : Type) (render : P → Option GrayImage) (probes : List P),
      runProbes P render render probes = ([], [], [])) := by
  refine ⟨fun X => diffV_self_aux X X rfl, fun f => diffV_self_aux _ _ rfl, ?_⟩
  intro P render probes
  have hnone : ∀ p ∈ probes, compareRenders (render p) (render p) = none :=
    fun p _ => compareRenders_self (render p)
  refine Prod.ext ?_ (Prod.ext ?_ ?_) <;>
    · simp only [runProbes]
      rw [List.filter_eq_nil_iff]
      intro p hp
      simp [hnone p hp]

/-- Recognizer for the spec's error-leaf shape, an object with the single
key "error" holding a string. -/
def isErrorLeaf : Value → Bool
  | .obj [(k, .str _)] => k == "error"
  | _ => false

/-- C3 counterexample: a font whose single table "head" fails to decode,
diffed against one where it decodes to the number 1. The diff node for the
table is the leaf pair with the string "Could not parse", which does not
have the error-leaf shape the claim requires. -/
theorem table_decode_error_not_error_leaf :
    table_diff ⟨[("head", .error "oops")], .obj []⟩ ⟨[("head", .ok (.num 1))], .obj []⟩ =
      .obj [("head", .arr [.str "Could not parse", .num 1])] ∧
    isErrorLeaf (.arr [.str "Could not parse", .num 1]) = false := by
  constructor
  · simp [table_diff, font_to_json, decodeTableValue, diffV, keysUnion, lookupKey]
  · rfl

/-- C3 amended: when decoding one table fails on one side, `font_to_json`
records the string leaf "Could not parse" for it, and the table's node in the
diff output is the leaf pair of that string and the other side's value; the
failure is recorded as data and the diff of the rest of the font (here the
name table) still happens. -/
theorem table_decode_error_leaf_pair (tag e : String) (v nm : Value)
    (hv : v ≠ .str "Could not parse") (htag : tag ≠ "name") :
    table_diff ⟨[(tag, .error e)], nm⟩ ⟨[(tag, .ok v)], nm⟩ =
      .obj [(tag, .arr [.str "Could not parse", v])] := by
  have hself : diffV nm nm = .obj [] := diffV_self_aux nm nm rfl
  have hne : ∀ l r : List (String × Value),
      Value.str "Could not parse" = Value.obj l → v = Value.obj r → False := by
    intro l r h _
    cases h
  rw [table_diff, font_to_json, font_to_json]
  simp only [List.map, decodeTableValue, List.cons_append, List.nil_append]
  rw [diffV.eq_1]
  simp [keysUnion, lookupKey, htag, Ne.symm hv, hself, diffV.eq_2 _ _ hne]

/-- Witness for C3's amended statement: the failed table "hmtx" against a
number, with an empty name table. -/
theorem table_decode_error_leaf_pair_witness :
    table_diff ⟨[("hmtx", .error "bad")], .obj []⟩ ⟨[("hmtx", .ok (.num 7))], .obj []⟩ =
      .obj [("hmtx", .arr [.str "Could not parse", .num 7])] :=
  table_decode_error_leaf_pair "hmtx" "bad" (.num 7) (.obj []) (by simp) (by simp)

/-! ### The shaping and rasterization pipeline (src/render/renderer.rs)

The `Renderer` owns externally produced data, modelled here as the record
`RenderEnv`: the supported codepoints, the scale (the requested font size),
the unit-scaling factor `font_size / height_unscaled`, the face ascender, and
the external ab_glyph functions (side bearings, glyph bounds, outline
extraction, and the rasterizer producing pixel coverage events for an
outlined glyph). Shaping is external too: `render_string` takes the shaper
output for the probe string as the list `shaped`. f32 values are idealized
as rationals, and `u16`/`u32` casts keep their truncating semantics. -/

structure GlyphPosition where
  x_advance : Int
  y_advance : Int
  x_offset : Int
  y_offset : Int
  deriving DecidableEq

structure GlyphInfo where
  glyph_id : Nat
  deriving DecidableEq

/-- One entry of the shaper output: a glyph position paired with its info. -/
structure ShapedGlyph where
  pos : GlyphPosition
  info : GlyphInfo
  deriving DecidableEq

structure PointQ where
  x : ℚ
  y : ℚ
  deriving DecidableEq

/-- The ab_glyph `Glyph`: a (u16) glyph id, a pixel scale and a position. -/
structure Glyph where
  id : Nat
  scale : ℚ
  position : PointQ
  deriving DecidableEq

/-- An ab_glyph rectangle (`Rect`), used for glyph and pixel bounds. -/
structure Bounds where
  min : PointQ
  max : PointQ
  deriving DecidableEq

/-- Rust `as u32` on a nonnegative-or-clamped f32: truncate toward zero,
clamping to the u32 range. -/
def ratToU32 (q : ℚ) : Nat :=
  if q ≤ 0 then 0 else min q.floor.toNat (2 ^ 32 - 1)

/-- The external collaborators and scalar fields a `Renderer` is built from. -/
structure RenderEnv (O : Type) where
  codepoints : List Nat
  scale : ℚ
  factor : ℚ
  ascender : ℚ
  hSideBearing : Nat → ℚ
  glyphBounds : Glyph → Bounds
  outline : Nat → Option O
  raster : Glyph → O → Bounds × List (Nat × Nat × ℚ)

/-- The `outline_cache` field: a finite map from glyph id to the cached
(possibly absent) outline. -/
abbrev OutlineCache (O : Type) : Type := List (Nat × Option O)

def cacheLookup (cache : OutlineCache O) (id : Nat) : Option (Option O) :=
  match cache with
  | [] => none
  | (k, v) :: rest => if k = id then some v else cacheLookup rest id

/-- The `Renderer::get_outline` method: return the cached entry for `id` if
present, otherwise invoke the font's outline extraction and cache the result
(also when it is `none`). -/
def get_outline (outlineFn : Nat → Option O) (cache : OutlineCache O) (id : Nat) :
    Option O × OutlineCache O :=
  match cacheLookup cache id with
  | some v => (v, cache)
  | none => (outlineFn id, (id, outlineFn id) :: cache)

/-- A sequence of `get_outline` calls on one renderer instance, threading the
cache and recording which ids actually reached the font's outline extraction
(exactly the calls that miss the cache). Returns the results in order, the
final cache, and the extraction trace. -/
def runGetOutlines (outlineFn : Nat → Option O) :
    OutlineCache O → List Nat → List (Option O) × OutlineCache O × List Nat
  | cache, [] => ([], cache, [])
  | cache, id :: rest =>
    let step := get_outline outlineFn cache id
    let next := runGetOutlines outlineFn step.2 rest
    (step.1 :: next.1, next.2.1,
      (if (cacheLookup cache id).isNone then [id] else []) ++ next.2.2)

theorem cacheLookup_mem (cache : OutlineCache O) (id : Nat) (v : Option O)
    (h : cacheLookup cache id = some v) : (id, v) ∈ cache := by
  induction cache with
  | nil => simp [cacheLookup] at h
  | cons p rest ih =>
    rcases p with ⟨k, w⟩
    rw [cacheLookup] at h
    split at h
    · rename_i hk
      cases h
      subst hk
      exact List.mem_cons_self _ _
    · exact List.mem_cons_of_mem _ (ih h)

theorem get_outline_correct (outlineFn : Nat → Option O) (cache : OutlineCache O)
    (id : Nat) (hinv : ∀ p ∈ cache, p.2 = outlineFn p.1) :
    (get_outline outlineFn cache id).1 = outlineFn id ∧
    ∀ p ∈ (get_outline outlineFn cache id).2, p.2 = outlineFn p.1 := by
  rw [get_outline]
  cases h : cacheLookup cache id with
  | none =>
    refine ⟨rfl, ?_⟩
    intro p hp
    rcases List.mem_cons.mp hp with h1 | h2
    · subst h1; rfl
    · exact hinv p h2
  | some v =>
    exact ⟨hinv (id, v) (cacheLookup_mem cache id v h), hinv⟩

theorem runGetOutlines_results (outlineFn : Nat → Option O) (ids : List Nat)
    (cache : OutlineCache O) (hinv : ∀ p ∈ cache, p.2 = outlineFn p.1) :
    (runGetOutlines outlineFn cache ids).1 = ids.map outlineFn ∧
    ∀ p ∈ (runGetOutlines outlineFn cache ids).2.1, p.2 = outlineFn p.1 := by
  induction ids generalizing cache with
  | nil => exact ⟨rfl, hinv⟩
  | cons id rest ih =>
    obtain ⟨h1, h2⟩ := get_outline_correct outlineFn cache id hinv
    obtain ⟨h3, h4⟩ := ih (get_outline outlineFn cache id).2 h2
    rw [runGetOutlines]
    exact ⟨by simp [h1, h3], h4⟩

theorem runGetOutlines_invoked (outlineFn : Nat → Option O) (ids : List Nat)
    (cache : OutlineCache O) :
    (runGetOutlines outlineFn cache ids).2.2.Nodup ∧
    ∀ id ∈ (runGetOutlines outlineFn cache ids).2.2, cacheLookup cache id = none := by
  induction ids generalizing cache with
  | nil => simp [runGetOutlines]
  | cons id rest ih =>
    rw [runGetOutlines]
    cases h : cacheLookup cache id with
    | some v =>
      have hcache : (get_outline outlineFn cache id).2 = cache := by
        rw [get_outline, h]
      obtain ⟨h1, h2⟩ := ih (get_outline outlineFn cache id).2
      simp only [h, Option.isSome_some, Option.isNone_some, if_neg Bool.false_ne_true,
        List.nil_append]
      refine ⟨h1, ?_⟩
      intro j hj
      have hj2 := h2 j hj
      rwa [hcache] at hj2
    | none =>
      have hcache : (get_outline outlineFn cache id).2 = (id, outlineFn id) :: cache := by
        rw [get_outline, h]
      obtain ⟨h1, h2⟩ := ih (get_outline outlineFn cache id).2
      have hrest : ∀ j ∈ (runGetOutlines outlineFn (get_outline outlineFn cache id).2 rest).2.2,
          j ≠ id ∧ cacheLookup cache j = none := by
        intro j hj
        have := h2 j hj
        rw [hcache, cacheLookup] at this
        constructor
        · intro hji
          rw [if_pos hji.symm] at this
          cases this
        · by_cases hji : id = j
          · rw [if_pos hji] at this; cases this
          · rwa [if_neg hji] at this
      simp only [h, Option.isNone_none, if_pos rfl, List.singleton_append]
      refine ⟨List.nodup_cons.mpr ⟨?_, h1⟩, ?_⟩
      · intro hmem
        exact (hrest id hmem).1 rfl
      · intro j hj
        rcases List.mem_cons.mp hj with h5 | h5
        · subst h5; exact h
        · exact (hrest j h5).2

/-- C7: within one renderer instance (starting from the empty outline cache),
any sequence of `get_outline` calls invokes the font's outline extraction at
most once per glyph id — the extraction trace has no duplicates — and every
call returns the extraction result for its id, so all lookups of one id
return the same value as the first. -/
theorem outline_cache_extracts_once (O : Type) (outlineFn : Nat → Option O)
    (ids : List Nat) :
    (runGetOutlines outlineFn [] ids).2.2.Nodup ∧
    (runGetOutlines outlineFn [] ids).1 = ids.map outlineFn :=
  ⟨(runGetOutlines_invoked outlineFn ids []).1,
   (runGetOutlines_results outlineFn ids [] (by intro p hp; cases hp)).1⟩

/-- Saturating `u8` addition, as used for pixel blending. -/
def satAdd255 (a b : Nat) : Nat := min (a + b) 255

/-- Strict-threshold coverage contribution of one pixel: full intensity for
coverage strictly above one half, nothing otherwise (`if v > 0.5`). -/
def pixelContribution (v : ℚ) : Nat := if 1 / 2 < v then 255 else 0

def setPix (img : GrayImage) (x y val : Nat) : GrayImage :=
  ⟨img.width, img.height, fun a b => if a = x ∧ b = y then val else img.pix a b⟩

/-- One call of the `outlined.draw` closure: offset the pixel by the glyph's
pixel bounds, silently skip it when it falls outside the canvas, otherwise
blend the thresholded coverage into the pixel with saturating addition. -/
def drawEvent (minx miny : Nat) (img : GrayImage) (e : Nat × Nat × ℚ) : GrayImage :=
  if img.width ≤ e.1 + minx ∨ img.height ≤ e.2.1 + miny then img
  else setPix img (e.1 + minx) (e.2.1 + miny)
    (satAdd255 (img.pix (e.1 + minx) (e.2.1 + miny)) (pixelContribution e.2.2))

/-- Rasterize one glyph into the canvas: nothing when it has no outline,
otherwise fold the rasterizer's coverage events over the canvas, offset by
the truncated pixel bounds. -/
def drawGlyph (env : RenderEnv O) (img : GrayImage) (g : Glyph) (outl : Option O) :
    GrayImage :=
  match outl with
  | none => img
  | some o =>
    ((env.raster g o).2).foldl
      (drawEvent (ratToU32 (env.raster g o).1.min.x) (ratToU32 (env.raster g o).1.min.y)) img

/-- The `for glyph in glyphs` rasterization loop of `render_string`,
threading the outline cache through `get_outline`. -/
def rasterLoop (env : RenderEnv O) :
    List Glyph → GrayImage × OutlineCache O → GrayImage × OutlineCache O
  | [], s => s
  | g :: rest, s =>
    rasterLoop env rest
      (drawGlyph env s.1 g (get_outline env.outline s.2 g.id).1,
       (get_outline env.outline s.2 g.id).2)

/-- The trace token `gid=<id>,position=<xoff>,<yoff>` for one shaped glyph,
built from the raw (unscaled) shaper offsets. -/
def traceToken (sg : ShapedGlyph) : String :=
  "gid=" ++ toString sg.info.glyph_id ++ ",position=" ++
    toString sg.pos.x_offset ++ "," ++ toString sg.pos.y_offset

/-- The glyph-building loop of `render_string`: fail at the first glyph id 0,
otherwise place each glyph at the cursor plus its scaled offset (shifted by
the scaled ascender), append its trace token and a bar to the buffer, and
advance the cursor by the scaled x-advance. Glyph ids are truncated to u16
as in `GlyphId(info.glyph_id as u16)`. -/
def buildGlyphs (env : RenderEnv O) :
    List ShapedGlyph → ℚ → List Glyph → List Char → Option (List Glyph × List Char)
  | [], _, gs, buf => some (gs, buf)
  | sg :: rest, cursor, gs, buf =>
    if sg.info.glyph_id = 0 then none
    else
      buildGlyphs env rest (cursor + (sg.pos.x_advance : ℚ) * env.factor)
        (gs ++ [⟨sg.info.glyph_id % 65536, env.scale,
          ⟨cursor + (sg.pos.x_offset : ℚ) * env.factor,
           -(sg.pos.y_offset : ℚ) * env.factor + env.factor * env.ascender⟩⟩])
        (buf ++ (traceToken sg).data ++ ['|'])

/-- The initial cursor of `render_string`: the side bearing of the first
shaped glyph with a strictly positive x-advance, or zero when there is none. -/
def initialCursor (env : RenderEnv O) (shaped : List ShapedGlyph) : ℚ :=
  match shaped.find? (fun sg => decide (0 < sg.pos.x_advance)) with
  | some sg => env.hSideBearing (sg.info.glyph_id % 65536)
  | none => 0

/-- The `Renderer::render_string` method. The shaper output for the probe
string is the parameter `shaped`; the outline cache is threaded in and out. -/
def render_string (env : RenderEnv O) (cache : OutlineCache O)
    (shaped : List ShapedGlyph) (text : List Nat) :
    Option (String × GrayImage) × OutlineCache O :=
  if text.any (fun c => !(env.codepoints.contains c)) then (none, cache)
  else
    match buildGlyphs env shaped (initialCursor env shaped) [] [] with
    | none => (none, cache)
    | some (glyphs, buf) =>
      if h : glyphs = [] then (none, cache)
      else
        let width := ratToU32 ((env.glyphBounds (glyphs.getLast h)).max.x)
        let height := ratToU32 (env.scale * (12 / 10 : ℚ))
        let s := rasterLoop env glyphs (⟨width, height, fun _ _ => 0⟩, cache)
        (some (String.mk buf.dropLast, s.1), s.2)

/-- Reference placement of the shaped glyphs: the glyph list `buildGlyphs`
produces, written as a plain recursion on the shaper output. -/
def placeGlyphs (env : RenderEnv O) : ℚ → List ShapedGlyph → List Glyph
  | _, [] => []
  | cursor, sg :: rest =>
    ⟨sg.info.glyph_id % 65536, env.scale,
     ⟨cursor + (sg.pos.x_offset : ℚ) * env.factor,
      -(sg.pos.y_offset : ℚ) * env.factor + env.factor * env.ascender⟩⟩ ::
      placeGlyphs env (cursor + (sg.pos.x_advance : ℚ) * env.factor) rest

theorem buildGlyphs_none_iff (env : RenderEnv O) (shaped : List ShapedGlyph)
    (cursor : ℚ) (gs : List Glyph) (buf : List Char) :
    buildGlyphs env shaped cursor gs buf = none ↔ ∃ sg ∈ shaped, sg.info.glyph_id = 0 := by
  induction shaped generalizing cursor gs buf with
  | nil => simp [buildGlyphs]
  | cons sg rest ih =>
    rw [buildGlyphs]
    by_cases h : sg.info.glyph_id = 0
    · simp [h]
    · rw [if_neg h, ih]
      simp [h]

theorem buildGlyphs_some (env : RenderEnv O) (shaped : List ShapedGlyph)
    (hid : ∀ sg ∈ shaped, sg.info.glyph_id ≠ 0) :
    ∀ (cursor : ℚ) (gs : List Glyph) (buf : List Char),
    buildGlyphs env shaped cursor gs buf =
      some (gs ++ placeGlyphs env cursor shaped,
        buf ++ (shaped.map (fun sg => (traceToken sg).data ++ ['|'])).flatten) := by
  induction shaped with
  | nil =>
    intro cursor gs buf
    simp [buildGlyphs, placeGlyphs]
  | cons sg rest ih =>
    intro cursor gs buf
    rw [buildGlyphs, if_neg (hid sg (List.mem_cons_self _ _)),
      ih (fun g hg => hid g (List.mem_cons_of_mem _ hg))]
    simp [placeGlyphs, List.append_assoc]

theorem placeGlyphs_length (env : RenderEnv O) (shaped : List ShapedGlyph) :
    ∀ cursor : ℚ, (placeGlyphs env cursor shaped).length = shaped.length := by
  induction shaped with
  | nil => intro cursor; rfl
  | cons sg rest ih => intro cursor; simp [placeGlyphs, ih]

theorem placeGlyphs_eq_nil_iff (env : RenderEnv O) (cursor : ℚ)
    (shaped : List ShapedGlyph) :
    placeGlyphs env cursor shaped = [] ↔ shaped = [] := by
  cases shaped with
  | nil => simp [placeGlyphs]
  | cons sg rest => simp [placeGlyphs]

theorem cmapMiss_iff (env : RenderEnv O) (text : List Nat) :
    (text.any (fun c => !(env.codepoints.contains c)) = true) ↔
      ∃ c ∈ text, c ∉ env.codepoints := by
  rw [List.any_eq_true]
  constructor
  · rintro ⟨c, hc, hb⟩
    exact ⟨c, hc, by simpa [List.contains, List.elem_iff] using hb⟩
  · rintro ⟨c, hc, hb⟩
    exact ⟨c, hc, by simpa [List.contains, List.elem_iff] using hb⟩

/-- C1: `render_string` returns `None` exactly when a precondition fails:
some character of the probe string is outside the supported-codepoint set, or
the shaper output contains the no-glyph sentinel id 0, or the shaper output
is empty; in every other case it returns `Some`. -/
theorem render_string_none_iff (O : Type) (env : RenderEnv O) (cache : OutlineCache O)
    (shaped : List ShapedGlyph) (text : List Nat) :
    (render_string env cache shaped text).1 = none ↔
      (∃ c ∈ text, c ∉ env.codepoints) ∨
      (∃ sg ∈ shaped, sg.info.glyph_id = 0) ∨ shaped = [] := by
  rw [render_string]
  by_cases hany : text.any (fun c => !(env.codepoints.contains c)) = true
  · rw [if_pos hany]
    simp only [true_iff]
    exact Or.inl ((cmapMiss_iff env text).mp hany)
  · rw [if_neg hany]
    have hcov : ¬ ∃ c ∈ text, c ∉ env.codepoints := by
      rw [← cmapMiss_iff env text]
      exact hany
    by_cases hzero : ∃ sg ∈ shaped, sg.info.glyph_id = 0
    · rw [(buildGlyphs_none_iff env shaped _ [] []).mpr hzero]
      simp only [true_iff]
      exact Or.inr (Or.inl hzero)
    · have hid : ∀ sg ∈ shaped, sg.info.glyph_id ≠ 0 := by
        intro sg hsg h0
        exact hzero ⟨sg, hsg, h0⟩
      rw [buildGlyphs_some env shaped hid _ [] []]
      simp only [List.nil_append]
      by_cases hsh : shaped = []
      · rw [dif_pos ((placeGlyphs_eq_nil_iff env _ shaped).mpr hsh)]
        simp only [true_iff]
        exact Or.inr (Or.inr hsh)
      · rw [dif_neg (fun h => hsh ((placeGlyphs_eq_nil_iff env _ shaped).mp h))]
        refine ⟨fun hcontra => absurd hcontra (by simp), fun hbad => ?_⟩
        exfalso
        rcases hbad with h | h | h
        · exact hcov h
        · exact hzero h
        · exact hsh h

theorem drawEvent_dims (minx miny : Nat) (img : GrayImage) (e : Nat × Nat × ℚ) :
    (drawEvent minx miny img e).width = img.width ∧
    (drawEvent minx miny img e).height = img.height := by
  rw [drawEvent]
  split
  · exact ⟨rfl, rfl⟩
  · exact ⟨rfl, rfl⟩

theorem foldl_drawEvent_dims (minx miny : Nat) (events : List (Nat × Nat × ℚ)) :
    ∀ img : GrayImage,
      ((events.foldl (drawEvent minx miny) img).width = img.width ∧
       (events.foldl (drawEvent minx miny) img).height = img.height) := by
  induction events with
  | nil => intro img; exact ⟨rfl, rfl⟩
  | cons e rest ih =>
    intro img
    rw [List.foldl_cons]
    obtain ⟨h1, h2⟩ := ih (drawEvent minx miny img e)
    obtain ⟨h3, h4⟩ := drawEvent_dims minx miny img e
    exact ⟨h1.trans h3, h2.trans h4⟩

theorem drawGlyph_dims (env : RenderEnv O) (img : GrayImage) (g : Glyph)
    (outl : Option O) :
    (drawGlyph env img g outl).width = img.width ∧
    (drawGlyph env img g outl).height = img.height := by
  cases outl with
  | none => exact ⟨rfl, rfl⟩
  | some o => exact foldl_drawEvent_dims _ _ _ img

theorem rasterLoop_dims (env : RenderEnv O) (gs : List Glyph) :
    ∀ s : GrayImage × OutlineCache O,
      ((rasterLoop env gs s).1.width = s.1.width ∧
       (rasterLoop env gs s).1.height = s.1.height) := by
  induction gs with
  | nil => intro s; exact ⟨rfl, rfl⟩
  | cons g rest ih =>
    intro s
    rw [rasterLoop]
    obtain ⟨h1, h2⟩ := ih (drawGlyph env s.1 g (get_outline env.outline s.2 g.id).1,
      (get_outline env.outline s.2 g.id).2)
    obtain ⟨h3, h4⟩ := drawGlyph_dims env s.1 g (get_outline env.outline s.2 g.id).1
    exact ⟨h1.trans h3, h2.trans h4⟩

theorem render_string_success (env : RenderEnv O) (cache : OutlineCache O)
    (shaped : List ShapedGlyph) (text : List Nat)
    (hcov : ∀ c ∈ text, c ∈ env.codepoints)
    (hid : ∀ sg ∈ shaped, sg.info.glyph_id ≠ 0)
    (hne : shaped ≠ []) :
    render_string env cache shaped text =
      (some (String.mk ((shaped.map (fun sg => (traceToken sg).data ++ ['|'])).flatten.dropLast),
        (rasterLoop env (placeGlyphs env (initialCursor env shaped) shaped)
          (⟨ratToU32 ((env.glyphBounds ((placeGlyphs env (initialCursor env shaped) shaped).getLast
              (fun h => hne ((placeGlyphs_eq_nil_iff env _ shaped).mp h)))).max.x),
            ratToU32 (env.scale * (12 / 10 : ℚ)), fun _ _ => 0⟩, cache)).1),
       (rasterLoop env (placeGlyphs env (initialCursor env shaped) shaped)
          (⟨ratToU32 ((env.glyphBounds ((placeGlyphs env (initialCursor env shaped) shaped).getLast
              (fun h => hne ((placeGlyphs_eq_nil_iff env _ shaped).mp h)))).max.x),
            ratToU32 (env.scale * (12 / 10 : ℚ)), fun _ _ => 0⟩, cache)).2) := by
  have hanyf : text.any (fun c => !(env.codepoints.contains c)) = false := by
    rw [List.any_eq_false]
    intro c hc
    simp [List.contains, List.elem_iff, hcov c hc]
  rw [render_string, if_neg (by rw [hanyf]; exact Bool.false_ne_true),
    buildGlyphs_some env shaped hid _ [] []]
  simp only [List.nil_append]
  rw [dif_neg (fun h => hne ((placeGlyphs_eq_nil_iff env _ shaped).mp h))]

/-- C5: for every successful `render_string`, the canvas width is the
truncated maximum x of the bounding box of the last placed glyph, and the
canvas height is the truncation of 1.2 times the requested point size. -/
theorem render_string_canvas (O : Type) (env : RenderEnv O) (cache : OutlineCache O)
    (shaped : List ShapedGlyph) (text : List Nat)
    (hcov : ∀ c ∈ text, c ∈ env.codepoints)
    (hid : ∀ sg ∈ shaped, sg.info.glyph_id ≠ 0)
    (hne : shaped ≠ []) :
    ∃ trace img, (render_string env cache shaped text).1 = some (trace, img) ∧
      (∃ lastg ∈ (placeGlyphs env (initialCursor env shaped) shaped).getLast?,
        img.width = ratToU32 ((env.glyphBounds lastg).max.x)) ∧
      img.height = ratToU32 (env.scale * (12 / 10 : ℚ)) := by
  have hpne : placeGlyphs env (initialCursor env shaped) shaped ≠ [] :=
    fun h => hne ((placeGlyphs_eq_nil_iff env _ shaped).mp h)
  rw [render_string_success env cache shaped text hcov hid hne]
  refine ⟨_, _, rfl, ⟨(placeGlyphs env (initialCursor env shaped) shaped).getLast hpne,
    List.getLast?_eq_getLast _ hpne, ?_⟩, ?_⟩
  · exact (rasterLoop_dims env _ _).1
  · exact (rasterLoop_dims env _ _).2

/-- The scaled advance accumulated before index `i` of the shaper output. -/
def advanceBefore (env : RenderEnv O) (shaped : List ShapedGlyph) (i : Nat) : ℚ :=
  ((shaped.take i).map (fun sg => (sg.pos.x_advance : ℚ) * env.factor)).sum

theorem placeGlyphs_get? (env : RenderEnv O) (shaped : List ShapedGlyph) :
    ∀ (cursor : ℚ) (i : Nat) (sg : ShapedGlyph), shaped.get? i = some sg →
      (placeGlyphs env cursor shaped).get? i = some
        ⟨sg.info.glyph_id % 65536, env.scale,
         ⟨cursor + advanceBefore env shaped i + (sg.pos.x_offset : ℚ) * env.factor,
          -(sg.pos.y_offset : ℚ) * env.factor + env.factor * env.ascender⟩⟩ := by
  induction shaped with
  | nil =>
    intro cursor i sg h
    simp [List.get?] at h
  | cons hd rest ih =>
    intro cursor i sg h
    cases i with
    | zero =>
      rw [List.get?] at h
      cases h
      simp [placeGlyphs, List.get?, advanceBefore]
    | succ n =>
      rw [List.get?] at h
      rw [placeGlyphs, List.get?, ih _ n sg h]
      have hadv : advanceBefore env (hd :: rest) (n + 1) =
          (hd.pos.x_advance : ℚ) * env.factor + advanceBefore env rest n := by
        simp [advanceBefore, List.take_succ_cons]
      rw [hadv]
      simp only [Option.some.injEq, Glyph.mk.injEq, PointQ.mk.injEq]
      exact ⟨trivial, trivial, by ring, trivial⟩

/-- C6: under the no-sentinel precondition, the glyph list `render_string`
rasterizes is `placeGlyphs` from the initial cursor; the initial cursor is
the side bearing of the first shaped glyph with strictly positive x-advance
when one exists; and the glyph at index `i` sits at the initial cursor plus
the scaled advances of the glyphs before it plus its own scaled offset, with
the y-offset flipped and shifted by the scaled ascender. -/
theorem render_glyph_positions (O : Type) (env : RenderEnv O)
    (shaped : List ShapedGlyph) (hid : ∀ sg ∈ shaped, sg.info.glyph_id ≠ 0) :
    (buildGlyphs env shaped (initialCursor env shaped) [] []).map Prod.fst =
      some (placeGlyphs env (initialCursor env shaped) shaped) ∧
    (∀ sg, shaped.find? (fun g => decide (0 < g.pos.x_advance)) = some sg →
      initialCursor env shaped = env.hSideBearing (sg.info.glyph_id % 65536)) ∧
    ∀ (cursor : ℚ) (i : Nat) (sg : ShapedGlyph), shaped.get? i = some sg →
      (placeGlyphs env cursor shaped).get? i = some
        ⟨sg.info.glyph_id % 65536, env.scale,
         ⟨cursor + advanceBefore env shaped i + (sg.pos.x_offset : ℚ) * env.factor,
          -(sg.pos.y_offset : ℚ) * env.factor + env.factor * env.ascender⟩⟩ := by
  refine ⟨?_, ?_, placeGlyphs_get? env shaped⟩
  · rw [buildGlyphs_some env shaped hid _ [] []]
    simp
  · intro sg hsg
    rw [initialCursor, hsg]

theorem flattenSep_dropLast (sep : Char) (ts : List (List Char)) (h : ts ≠ []) :
    ((ts.map (fun t => t ++ [sep])).flatten).dropLast = List.intercalate [sep] ts := by
  induction ts with
  | nil => exact absurd rfl h
  | cons t rest ih =>
    cases rest with
    | nil =>
      simp [List.intercalate, List.intersperse, List.dropLast_concat]
    | cons t2 rest2 =>
      have hne2 : ((t2 :: rest2).map (fun u => u ++ [sep])).flatten ≠ [] := by simp
      rw [List.map_cons, List.flatten_cons, List.dropLast_append_of_ne_nil _ hne2,
        ih (by simp)]
      simp [List.intercalate, List.intersperse, List.append_assoc]

/-- C8: for every successful `render_string`, the trace is exactly one token
`gid=<id>,position=<xoff>,<yoff>` per shaped glyph, in shaping order, with
consecutive tokens separated by a bar. -/
theorem render_string_trace (O : Type) (env : RenderEnv O) (cache : OutlineCache O)
    (shaped : List ShapedGlyph) (text : List Nat)
    (hcov : ∀ c ∈ text, c ∈ env.codepoints)
    (hid : ∀ sg ∈ shaped, sg.info.glyph_id ≠ 0)
    (hne : shaped ≠ []) :
    ∃ img, (render_string env cache shaped text).1 =
      some (String.mk (List.intercalate ['|']
        (shaped.map (fun sg => (traceToken sg).data))), img) := by
  have hdrop : (shaped.map (fun sg => (traceToken sg).data ++ ['|'])).flatten.dropLast
      = List.intercalate ['|'] (shaped.map (fun sg => (traceToken sg).data)) := by
    rw [show (shaped.map (fun sg => (traceToken sg).data ++ ['|'])) =
        ((shaped.map (fun sg => (traceToken sg).data)).map (fun t => t ++ ['|'])) by
      rw [List.map_map]
      rfl]
    exact flattenSep_dropLast '|' _ (by simp [hne])
  rw [render_string_success env cache shaped text hcov hid hne, hdrop]
  exact ⟨_, rfl⟩

/-- C4 amended: a coverage event inside the canvas blends
`if 1/2 < v then 255 else 0` (a strict threshold) into the previous pixel
value with saturating addition; full intensity is contributed exactly when
the coverage exceeds one half; an event outside the canvas leaves the image
untouched. -/
theorem draw_event_semantics (minx miny x y : Nat) (v : ℚ) (img : GrayImage) :
    (x + minx < img.width → y + miny < img.height →
      (drawEvent minx miny img (x, y, v)).pix (x + minx) (y + miny) =
        satAdd255 (img.pix (x + minx) (y + miny)) (pixelContribution v)) ∧
    (pixelContribution v = 255 ↔ 1 / 2 < v) ∧
    (img.width ≤ x + minx ∨ img.height ≤ y + miny →
      drawEvent minx miny img (x, y, v) = img) := by
  refine ⟨?_, ?_, ?_⟩
  · intro h1 h2
    rw [drawEvent, if_neg (by push_neg; exact ⟨h1, h2⟩)]
    simp [setPix]
  · by_cases hv : 1 / 2 < v
    · rw [pixelContribution, if_pos hv]
      exact iff_of_true rfl hv
    · rw [pixelContribution, if_neg hv]
      exact iff_of_false (by decide) hv
  · intro h
    rw [drawEvent, if_pos h]

/-- C4 counterexample: at coverage exactly one half — which satisfies the
claim's threshold `coverage >= 0.5` — the rasterizer contributes nothing: the
pixel stays 0 instead of receiving full intensity 255. -/
theorem half_coverage_counterexample :
    ((1 : ℚ) / 2 ≥ 1 / 2) ∧
    (drawEvent 0 0 ⟨1, 1, fun _ _ => 0⟩ (0, 0, (1 : ℚ) / 2)).pix 0 0 = 0 ∧
    (0 : Nat) ≠ 255 := by
  refine ⟨le_refl _, ?_, by decide⟩
  rw [drawEvent, if_neg (by simp), setPix]
  simp [satAdd255, pixelContribution]

/-- Witness for C4's amended statement: an in-canvas event with coverage 1
adds full intensity to a zero pixel. -/
theorem draw_event_semantics_witness :
    (drawEvent 0 0 ⟨1, 1, fun _ _ => 0⟩ (0, 0, (1 : ℚ))).pix 0 0 =
      satAdd255 0 (pixelContribution 1) :=
  (draw_event_semantics 0 0 0 0 1 ⟨1, 1, fun _ _ => 0⟩).1 (by decide) (by decide)

/-- A concrete render environment (over the trivial outline type) and shaper
output used to witness the rendering theorems. -/
def envW : RenderEnv Unit :=
  { codepoints := [65],
    scale := 10,
    factor := 1,
    ascender := 2,
    hSideBearing := fun _ => 3,
    glyphBounds := fun _ => ⟨⟨0, 0⟩, ⟨7, 9⟩⟩,
    outline := fun _ => none,
    raster := fun _ _ => (⟨⟨0, 0⟩, ⟨0, 0⟩⟩, []) }

def shapedW : List ShapedGlyph := [⟨⟨4, 0, 1, 2⟩, ⟨5⟩⟩]

/-- Witness for C5: the canvas theorem applied to the concrete environment. -/
theorem render_string_canvas_witness :
    ∃ trace img, (render_string envW [] shapedW [65]).1 = some (trace, img) ∧
      (∃ lastg ∈ (placeGlyphs envW (initialCursor envW shapedW) shapedW).getLast?,
        img.width = ratToU32 ((envW.glyphBounds lastg).max.x)) ∧
      img.height = ratToU32 (envW.scale * (12 / 10 : ℚ)) :=
  render_string_canvas Unit envW [] shapedW [65] (by decide) (by decide) (by decide)

/-- Witness for C6: the placement theorem applied to the concrete shaper
output, giving the concrete placed glyph at index 0. -/
theorem render_glyph_positions_witness :
    (placeGlyphs envW 3 shapedW).get? 0 = some
      ⟨5 % 65536, envW.scale,
       ⟨3 + advanceBefore envW shapedW 0 + ((1 : Int) : ℚ) * envW.factor,
        -((2 : Int) : ℚ) * envW.factor + envW.factor * envW.ascender⟩⟩ :=
  (render_glyph_positions Unit envW shapedW (by decide)).2.2 3 0 ⟨⟨4, 0, 1, 2⟩, ⟨5⟩⟩ rfl

/-- Witness for C8: the trace theorem applied to the concrete environment. -/
theorem render_string_trace_witness :
    ∃ img, (render_string envW [] shapedW [65]).1 =
      some (String.mk (List.intercalate ['|']
        (shapedW.map (fun sg => (traceToken sg).data))), img) :=
  render_string_trace Unit envW [] shapedW [65] (by decide) (by decide) (by decide)

end Diffenator3
